import Mathlib

/-!
Verification of the watch/build/reload orchestration engine of cargo-leptos.

Shallow embedding conventions:
* A UTF-8 path (camino Utf8PathBuf) is modelled by its list of components,
  `List String`.  The camino operations used by the source translate as:
  starts_with = component-wise prefix test, join = append (all joins in the
  modelled code append a relative suffix), as_str = components interleaved
  with "/".
* Filesystem observations (is_dir tests, directory listings) and I/O failures
  are oracles supplied as parameters, since the source queries the real disk.
* Functions that publish on the MSG_BUS are modelled as returning the list of
  messages they publish, in order.  MSG_BUS.send is modelled as succeeding.
* anyhow error contexts are dropped; only the originating error text is kept.
-/

abbrev Utf8Path := List String

/-- Models camino Utf8Path::starts_with: the second path is a component-wise
prefix of the first. -/
def Utf8Path.starts_with : Utf8Path → Utf8Path → Bool
  | _, [] => true
  | [], _ :: _ => false
  | x :: xs, y :: ys => x == y && Utf8Path.starts_with xs ys

/-- Models camino Utf8Path::join for the relative suffixes used in this code:
append of components. -/
def Utf8Path.join (p q : Utf8Path) : Utf8Path := p ++ q

/-- Models Utf8Path::as_str: the textual rendering of the path. -/
def Utf8Path.as_str (p : Utf8Path) : String := String.intercalate "/" p

/-- The Watched change event of src/run/watch.rs. -/
inductive Watched where
  | Remove (p : Utf8Path)
  | Rename (fr t : Utf8Path)
  | Write (p : Utf8Path)
  | Create (p : Utf8Path)
  | Rescan
  deriving DecidableEq, BEq

/-- Watched::path: the primary path of the event (for Rename, the from-path
only); Rescan carries none. -/
def Watched.path : Watched → Option Utf8Path
  | .Remove p | .Rename p _ | .Write p | .Create p => some p
  | .Rescan => none

/-- Watched::path_ext as written in src/run/watch.rs lines 130-132: it returns
self.path().map(as_str), that is the WHOLE path string, not the extension. -/
def Watched.path_ext (w : Watched) : Option String :=
  w.path.map Utf8Path.as_str

/-- Watched::path_starts_with: true when some path of the event starts with
the given path; Rescan never matches. -/
def Watched.path_starts_with (w : Watched) (path : Utf8Path) : Bool :=
  match w with
  | .Write p | .Create p | .Remove p => Utf8Path.starts_with p path
  | .Rename fr t => Utf8Path.starts_with fr path || Utf8Path.starts_with t path
  | .Rescan => false

/-- The paths carried by an event: both endpoints for a Rename, the single
path otherwise, none for Rescan. -/
def Watched.paths : Watched → List Utf8Path
  | .Remove p | .Write p | .Create p => [p]
  | .Rename a b => [a, b]
  | .Rescan => []

/-- The bus messages (Msg) that the watcher and asset synchronizer publish. -/
inductive Msg where
  | ShutDown
  | Reload (s : String)
  | SrcChanged
  | StyleChanged
  | AssetsChanged (w : Watched)
  deriving DecidableEq, BEq

/-- Models str::to_lowercase: ASCII case folding of every character (the
extension names compared in this code are all ASCII). -/
def to_lowercase (s : String) : String := String.mk (s.data.map Char.toLower)

/-- The extension-routing tail of handle in src/run/watch.rs lines 81-91:
match on path_ext, "rs" publishes SrcChanged, a style-sheet name compared
case-insensitively publishes StyleChanged, anything else nothing. -/
def route_ext (watched : Watched) : List Msg :=
  match watched.path_ext with
  | some e =>
    if e = "rs" then [Msg.SrcChanged]
    else if ["scss", "sass", "css"].contains (to_lowercase e) then [Msg.StyleChanged]
    else []
  | none => []

/-- handle in src/run/watch.rs lines 66-92, as the list of messages it
publishes: drop when the path is a member of the exclusion list, else
AssetsChanged when the event touches the assets root, else extension routing. -/
def handle (watched : Watched) (exclude : List Utf8Path) (assets_dir : Option Utf8Path) :
    List Msg :=
  if (match watched.path with
      | some path => exclude.contains path
      | none => false) then []
  else
    match assets_dir with
    | some ad =>
      if watched.path_starts_with ad then [Msg.AssetsChanged watched]
      else route_ext watched
    | none => route_ext watched

/-- unbase in src/ext/path.rs lines 29-42: walk the base components against
the path components, bailing on a mismatch or when the base is longer, and
return the remaining components. -/
def unbase (p base : Utf8Path) : Except String Utf8Path :=
  match base, p with
  | [], rest => .ok rest
  | _ :: _, [] => .error "unbase base longer"
  | b :: bs, c :: cs => if b = c then unbase cs bs else .error "unbase mismatch"

/-- rebase in src/ext/path.rs lines 62-71: unbase from src_root, then join the
remainder onto dest_root. -/
def rebase (p src_root dest_root : Utf8Path) : Except String Utf8Path :=
  match unbase p src_root with
  | .ok unbased => .ok (Utf8Path.join dest_root unbased)
  | .error e => .error e

/-- The inner for-loop of remove_nested in src/ext/path.rs: scan the kept
list; the first kept path of which the new path is an ancestor is replaced by
it (and the scan stops); if the new path is a descendant of a kept path it is
dropped; otherwise it is pushed at the end. -/
def remove_nested_insert (path : Utf8Path) : List Utf8Path → List Utf8Path
  | [] => [path]
  | added :: rest =>
    if Utf8Path.starts_with added path then path :: rest
    else if Utf8Path.starts_with path added then added :: rest
    else added :: remove_nested_insert path rest

/-- remove_nested in src/ext/path.rs lines 78-94: fold the paths into an
initially empty kept list. -/
def remove_nested (paths : List Utf8Path) : List Utf8Path :=
  paths.foldl (fun vec path => remove_nested_insert path vec) []

/-- Is an Except value an Ok value. -/
def exceptIsOk : Except String Utf8Path → Bool
  | .ok _ => true
  | .error _ => false

/-- A directory entry as seen by read_dir: a name and whether it is a
directory. -/
structure DirEntry where
  name : String
  is_dir : Bool
  deriving DecidableEq, BEq

/-- Oracle for the filesystem observations made by the asset synchronizer:
is_dir queries, the listing of the destination root (read_dir in clean_dest)
and the listing of the asset source root (read_dir_utf8 in mirror). -/
structure FsState where
  isDir : Utf8Path → Bool
  destEntries : List DirEntry
  srcEntries : List DirEntry

/-- A filesystem operation attempted by the asset synchronizer: fs::copy,
copy_dir_all, fs::remove_file, fs::remove_dir_all, fs::rename. -/
inductive FsOp where
  | copyFile (fr t : Utf8Path)
  | copyDir (fr t : Utf8Path)
  | removeFile (p : Utf8Path)
  | removeDir (p : Utf8Path)
  | rename (fr t : Utf8Path)
  deriving DecidableEq, BEq

/-- Whether an operation removes or overwrites the destination entry at path
q: removing a file removes exactly that path; removing a directory
(fs::remove_dir_all) removes the entry and everything beneath it; a file
copy overwrites its target; a recursive directory copy (copy_dir_all) may
overwrite entries at or beneath its target; a rename removes its source
entry together with everything beneath it and replaces the entry at its
target (std::fs::rename overwrites an existing target). -/
def clobbers (op : FsOp) (q : Utf8Path) : Bool :=
  match op with
  | .copyFile _ t => t == q
  | .copyDir _ t => Utf8Path.starts_with q t
  | .removeFile p => p == q
  | .removeDir p => Utf8Path.starts_with q p
  | .rename fr t => Utf8Path.starts_with q fr || Utf8Path.starts_with q t

/-- reserved in src/run/assets.rs lines 95-97: the source-side reserved
paths index.html and pkg under the asset source root. -/
def reserved (src : Utf8Path) : List Utf8Path :=
  [Utf8Path.join src ["index.html"], Utf8Path.join src ["pkg"]]

/-- The reserved destination entries of the staging tree: the index.html
entry file and the pkg bundle directory under the destination root. -/
def dest_reserved (dest : Utf8Path) : List Utf8Path :=
  [Utf8Path.join dest ["index.html"], Utf8Path.join dest ["pkg"]]

/-- clean_dest in src/run/assets.rs lines 121-143, as the operations it
attempts: every destination entry is removed except a directory named pkg
and a file named index.html. -/
def clean_dest_plan (dest : Utf8Path) (entries : List DirEntry) : List FsOp :=
  entries.filterMap (fun e =>
    if e.is_dir then
      if e.name != "pkg" then some (.removeDir (Utf8Path.join dest [e.name])) else none
    else
      if e.name != "index.html" then some (.removeFile (Utf8Path.join dest [e.name])) else none)

/-- mirror in src/run/assets.rs lines 145-172, as the operations it attempts:
each source-root entry is rebased onto the destination root and copied
(recursively for directories), skipping entries whose source path is
reserved. -/
def mirror_plan (src_root dest_root : Utf8Path) (entries : List DirEntry)
    (rsv : List Utf8Path) : Except String (List FsOp) :=
  match entries with
  | [] => .ok []
  | e :: rest =>
    match rebase (Utf8Path.join src_root [e.name]) src_root dest_root with
    | .error err => .error err
    | .ok t =>
      match mirror_plan src_root dest_root rest rsv with
      | .error err => .error err
      | .ok ops =>
        if rsv.contains (Utf8Path.join src_root [e.name]) then .ok ops
        else if e.is_dir then .ok (.copyDir (Utf8Path.join src_root [e.name]) t :: ops)
        else .ok (.copyFile (Utf8Path.join src_root [e.name]) t :: ops)

/-- resync in src/run/assets.rs lines 111-119, as the operations it attempts:
clean the destination, then mirror the source into it. -/
def resync_plan (fs : FsState) (src_root dest_root : Utf8Path) :
    Except String (List FsOp) :=
  match mirror_plan src_root dest_root fs.srcEntries (reserved src_root) with
  | .error e => .error e
  | .ok ms => .ok (clean_dest_plan dest_root fs.destEntries ++ ms)

/-- The outcome of planning one incremental update: either the event was
skipped by the reserved-path warning, or a list of operations to attempt. -/
inductive UpdatePlan where
  | skipped
  | ops (l : List FsOp)
  deriving DecidableEq, BEq

/-- update_asset in src/run/assets.rs lines 45-93, planning phase: the
reserved-path check on the event's primary path, then per-variant rebasing
and operation choice (Create copies file or directory depending on is_dir of
the source path, Remove removes file or directory depending on is_dir of the
rebased destination path, Rename renames between the rebased paths, Write
copies the file, Rescan plans a full resync). -/
def update_asset_plan (fs : FsState) (watched : Watched)
    (src_root dest_root : Utf8Path) : Except String UpdatePlan :=
  if (match watched.path with
      | some path => (reserved src_root).contains path
      | none => false) then
    .ok .skipped
  else
    match watched with
    | .Create f =>
      match rebase f src_root dest_root with
      | .error e => .error e
      | .ok t =>
        .ok (.ops (if fs.isDir f then [.copyDir f t] else [.copyFile f t]))
    | .Remove f =>
      match rebase f src_root dest_root with
      | .error e => .error e
      | .ok path =>
        .ok (.ops (if fs.isDir path then [.removeDir path] else [.removeFile path]))
    | .Rename fr t =>
      match rebase fr src_root dest_root with
      | .error e => .error e
      | .ok fr2 =>
        match rebase t src_root dest_root with
        | .error e => .error e
        | .ok t2 => .ok (.ops [.rename fr2 t2])
    | .Write f =>
      match rebase f src_root dest_root with
      | .error e => .error e
      | .ok t => .ok (.ops [.copyFile f t])
    | .Rescan =>
      match resync_plan fs src_root dest_root with
      | .error e => .error e
      | .ok l => .ok (.ops l)

/-- Execute a list of operations against the I/O failure oracle: the first
failing operation aborts with an error. -/
def run_ops (op_fails : FsOp → Bool) : List FsOp → Except String Unit
  | [] => .ok ()
  | op :: rest => if op_fails op then .error "io" else run_ops op_fails rest

/-- update_asset in src/run/assets.rs lines 45-93, as the messages it
publishes: a reserved-path skip returns Ok with no message; otherwise the
planned operations run and, on success, one Reload message is sent. -/
def update_asset (fs : FsState) (op_fails : FsOp → Bool) (watched : Watched)
    (src_root dest_root : Utf8Path) : Except String (List Msg) :=
  match update_asset_plan fs watched src_root dest_root with
  | .error e => .error e
  | .ok .skipped => .ok []
  | .ok (.ops l) =>
    match run_ops op_fails l with
    | .error e => .error e
    | .ok _ => .ok [Msg.Reload "reload"]

/-- Running a full resync: plan it and execute the operations. -/
def resync_run (fs : FsState) (op_fails : FsOp → Bool)
    (src_root dest_root : Utf8Path) : Except String Unit :=
  match resync_plan fs src_root dest_root with
  | .error e => .error e
  | .ok l => run_ops op_fails l

/-- Outcome of one AssetsChanged iteration of the updater loop: the loop
either keeps running (having published the given messages) or panics. -/
inductive StepOutcome where
  | continues (msgs : List Msg)
  | panics
  deriving DecidableEq, BEq

/-- The AssetsChanged arm of the updater loop spawned in src/run/assets.rs
lines 21-42: on an update_asset error the loop logs and runs a full resync,
unwrapping its result (a fallback failure panics the task); the fallback
itself publishes no message. -/
def asset_loop_step (fs : FsState) (op_fails : FsOp → Bool) (watched : Watched)
    (src_root dest_root : Utf8Path) : StepOutcome :=
  match update_asset fs op_fails watched src_root dest_root with
  | .ok msgs => .continues msgs
  | .error _ =>
    match resync_run fs op_fails src_root dest_root with
    | .ok _ => .continues []
    | .error _ => .panics

/-- Destination listings are well-typed for the staging tree: an entry named
index.html is the entry file (not a directory) and an entry named pkg is the
bundle directory. -/
def entries_ok (entries : List DirEntry) : Bool :=
  entries.all (fun e =>
    (!(e.name == "index.html") || !e.is_dir) && (!(e.name == "pkg") || e.is_dir))

instance {m a : Type} [DecidableEq m] [DecidableEq a] : DecidableEq (Except m a) := fun a b =>
  match a, b with
  | .ok x, .ok y => if h : x = y then .isTrue (by rw [h]) else .isFalse (by intro hc; injection hc; exact h (by assumption))
  | .error x, .error y => if h : x = y then .isTrue (by rw [h]) else .isFalse (by intro hc; injection hc; exact h (by assumption))
  | .ok _, .error _ => .isFalse (by intro hc; cases hc)
  | .error _, .ok _ => .isFalse (by intro hc; cases hc)

/-- Outcome of the watch-session setup: either the program aborted with an
exit code, or the session is running with the listed roots having failed to
watch (each merely logged). -/
inductive WatchRun where
  | aborted (exit_code : Nat)
  | running (logged : List Utf8Path)
  deriving DecidableEq

/-- Whether the setup outcome aborted the program. -/
def WatchRun.is_aborted : WatchRun → Bool
  | .aborted _ => true
  | .running _ => false

/-- The root-watching loop of run in src/run/watch.rs lines 55-59: each root
that cannot be watched is logged with log::error and the loop moves on; the
session then keeps running (awaiting shutdown). -/
def watch_all (watch_fails : Utf8Path → Bool) : List Utf8Path → WatchRun
  | [] => .running []
  | p :: rest =>
    match watch_all watch_fails rest with
    | .aborted c => .aborted c
    | .running logged => .running (if watch_fails p then p :: logged else logged)

/-- One iteration's environment for the watch loop of main.rs: the outcome
of the build, the outcome of cargo::run, and whether the shutdown flag is
observed set at the end of the iteration. -/
structure IterEnv where
  buildRes : Except String Unit
  runRes : Except String Unit
  shutdownAfter : Bool

/-- An observable action of one watch-loop iteration. -/
inductive WAction where
  | sendReload
  | runServer
  | logWarn
  | waitChange
  deriving DecidableEq

/-- The watch loop in src/main.rs lines 161-177, over a stream of iteration
environments: a successful build sends a reload and runs the server (whose
error exits the loop with that error); a failed build logs a warning and
blocks on the next source or style change; in both cases a set shutdown
flag ends the loop normally, otherwise the next iteration begins. An
exhausted stream ends the model with an Ok result. -/
def watch_loop : List IterEnv → List WAction × Except String Unit
  | [] => ([], .ok ())
  | env :: rest =>
    match env.buildRes with
    | .ok _ =>
      match env.runRes with
      | .error e => ([.sendReload, .runServer], .error e)
      | .ok _ =>
        if env.shutdownAfter then ([.sendReload, .runServer], .ok ())
        else (.sendReload :: .runServer :: (watch_loop rest).1, (watch_loop rest).2)
    | .error _ =>
      if env.shutdownAfter then ([.logWarn, .waitChange], .ok ())
      else (.logWarn :: .waitChange :: (watch_loop rest).1, (watch_loop rest).2)

theorem unbase_eq_ok_iff (p base r : Utf8Path) :
    unbase p base = .ok r ↔ p = base ++ r := by
  induction base generalizing p with
  | nil =>
    simp only [unbase, List.nil_append]
    constructor
    · intro h; exact (Except.ok.injEq _ _ ▸ h : _) ▸ rfl
    · intro h; rw [h]
  | cons b bs ih =>
    cases p with
    | nil => simp [unbase]
    | cons c cs =>
      simp only [unbase, List.cons_append]
      by_cases hbc : b = c
      · subst hbc
        simp [ih]
      · rw [if_neg hbc]
        constructor
        · intro h; cases h
        · intro h
          injection h with h1 h2
          exact absurd h1.symm hbc

theorem starts_with_iff_append (p base : Utf8Path) :
    Utf8Path.starts_with p base = true ↔ ∃ r, p = base ++ r := by
  induction base generalizing p with
  | nil =>
    cases p with
    | nil => simp [Utf8Path.starts_with]
    | cons c cs => simp [Utf8Path.starts_with]
  | cons b bs ih =>
    cases p with
    | nil => simp [Utf8Path.starts_with]
    | cons c cs =>
      simp only [Utf8Path.starts_with, Bool.and_eq_true, beq_iff_eq, ih,
        List.cons_append]
      constructor
      · rintro ⟨hcb, r, hr⟩
        exact ⟨r, by rw [hcb, hr]⟩
      · rintro ⟨r, hr⟩
        obtain ⟨h1, h2⟩ := List.cons.injEq _ _ _ _ ▸ hr
        exact ⟨h1, r, h2⟩

theorem rebase_eq_ok (p src dest q : Utf8Path) (h : rebase p src dest = .ok q) :
    ∃ r, p = src ++ r ∧ q = dest ++ r := by
  unfold rebase at h
  cases hu : unbase p src with
  | ok u =>
    rw [hu] at h
    refine ⟨u, (unbase_eq_ok_iff p src u).1 hu, ?_⟩
    cases h
    rfl
  | error e => rw [hu] at h; cases h

/-- C10: unbase succeeds exactly when src_root is a component-wise prefix of
the path; the remainder joined back onto src_root gives back the path, and
rebase moves it under dest_root; on a non-prefix both unbase and rebase
return an error. -/
theorem c10_unbase_rebase_roundtrip (p base dest : Utf8Path) :
    (Utf8Path.starts_with p base = true →
      ∃ r, unbase p base = .ok r ∧ Utf8Path.join base r = p ∧
        rebase p base dest = .ok (Utf8Path.join dest r)) ∧
    (Utf8Path.starts_with p base = false →
      exceptIsOk (unbase p base) = false ∧
      exceptIsOk (rebase p base dest) = false) := by
  constructor
  · intro h
    obtain ⟨r, hr⟩ := (starts_with_iff_append p base).1 h
    refine ⟨r, (unbase_eq_ok_iff p base r).2 hr, ?_, ?_⟩
    · rw [Utf8Path.join, hr]
    · unfold rebase
      rw [(unbase_eq_ok_iff p base r).2 hr]
  · intro h
    have hno : ∀ r, unbase p base ≠ .ok r := by
      intro r hc
      have := (unbase_eq_ok_iff p base r).1 hc
      have : Utf8Path.starts_with p base = true :=
        (starts_with_iff_append p base).2 ⟨r, this⟩
      rw [h] at this
      cases this
    constructor
    · cases hu : unbase p base with
      | ok u => exact absurd hu (hno u)
      | error e => rfl
    · unfold rebase
      cases hu : unbase p base with
      | ok u => exact absurd hu (hno u)
      | error e => rfl

/-- Witness for C10 at a concrete input: "assets/img/logo.png" unbased from
"assets" gives "img/logo.png", which rebases to "target/site/img/logo.png". -/
theorem c10_unbase_rebase_roundtrip_witness :
    ∃ r, unbase ["assets", "img", "logo.png"] ["assets"] = .ok r ∧
      Utf8Path.join ["assets"] r = ["assets", "img", "logo.png"] ∧
      rebase ["assets", "img", "logo.png"] ["assets"] ["target", "site"] =
        .ok (Utf8Path.join ["target", "site"] r) :=
  (c10_unbase_rebase_roundtrip ["assets", "img", "logo.png"] ["assets"]
    ["target", "site"]).1 (by decide)

/-- C1 (code bug): for the real source file "src/main.rs" (extension "rs",
outside any assets root, not excluded) the handler publishes NOTHING, because
Watched::path_ext returns the full path string "src/main.rs" rather than the
extension, so the match arms for "rs" and the style extensions never fire. -/
theorem c1_ext_routing_dead :
    handle (Watched.Write ["src", "main.rs"]) [] none = [] ∧
    Watched.path_ext (Watched.Write ["src", "main.rs"]) = some "src/main.rs" := by
  constructor
  · decide
  · decide

/-- C3 (code bug): remove_nested applied to the paths a/b, a/c, a returns
the list [a, a/c], in which a/c is nested under a — the ancestor a only
replaced the first descendant it found, leaving the second in place. -/
theorem c3_remove_nested_keeps_nested :
    remove_nested [["a", "b"], ["a", "c"], ["a"]] = [["a"], ["a", "c"]] ∧
    Utf8Path.starts_with ["a", "c"] ["a"] = true := by
  constructor
  · decide
  · decide

/-- C9: a Rescan event publishes no message at all: it carries no path, so it
is never matched by the exclusion check, path_starts_with is false for every
prefix, and extension routing falls through. -/
theorem c9_rescan_silent (exclude : List Utf8Path) (assets_dir : Option Utf8Path)
    (base : Utf8Path) :
    handle Watched.Rescan exclude assets_dir = [] ∧
    Watched.path_starts_with Watched.Rescan base = false := by
  constructor
  · cases assets_dir with
    | none => rfl
    | some ad => rfl
  · rfl

theorem reserved_contains_iff (src x : Utf8Path) :
    (reserved src).contains x = true ↔
      x = src ++ ["index.html"] ∨ x = src ++ ["pkg"] := by
  simp [reserved, Utf8Path.join, List.contains]

theorem dest_reserved_mem_iff (dest q : Utf8Path) :
    q ∈ dest_reserved dest ↔
      q = dest ++ ["index.html"] ∨ q = dest ++ ["pkg"] := by
  simp [dest_reserved, Utf8Path.join]


theorem append_singleton_prefix_cases (dest r : Utf8Path) (x : String)
    (h : Utf8Path.starts_with (dest ++ [x]) (dest ++ r) = true) :
    r = [] ∨ r = [x] := by
  obtain ⟨r2, hr2⟩ := (starts_with_iff_append _ _).1 h
  rw [List.append_assoc] at hr2
  have h2 : [x] = r ++ r2 := List.append_cancel_left hr2
  cases r with
  | nil => exact Or.inl rfl
  | cons y ys =>
    right
    injection h2 with h3 h4
    cases ys with
    | cons z zs => exact List.noConfusion h4
    | nil => rw [h3]

theorem rebased_prefix_cases (f src dest t : Utf8Path) (x : String)
    (hrb : rebase f src dest = .ok t)
    (hsw : Utf8Path.starts_with (dest ++ [x]) t = true) :
    f = src ∨ f = src ++ [x] := by
  obtain ⟨r, hfr, ht⟩ := rebase_eq_ok _ _ _ _ hrb
  subst ht
  rcases append_singleton_prefix_cases dest r x hsw with h | h <;> subst h
  · exact Or.inl (by simpa using hfr)
  · exact Or.inr hfr

theorem rebased_eq_case (f src dest t : Utf8Path) (x : String)
    (hrb : rebase f src dest = .ok t)
    (heq : t = dest ++ [x]) :
    f = src ++ [x] := by
  obtain ⟨r, hfr, ht⟩ := rebase_eq_ok _ _ _ _ hrb
  rw [ht] at heq
  have h2 := List.append_cancel_left heq
  rw [hfr, h2]

theorem clean_dest_no_clobber (dest : Utf8Path) (entries : List DirEntry)
    (hok : entries_ok entries = true) :
    ∀ op ∈ clean_dest_plan dest entries, ∀ q ∈ dest_reserved dest,
      clobbers op q = false := by
  intro op hop q hq
  obtain ⟨e, he, hfe⟩ := List.mem_filterMap.1 hop
  have hqe := (dest_reserved_mem_iff dest q).1 hq
  have hent := List.all_eq_true.1 hok e he
  by_cases hd : e.is_dir = true
  · rw [if_pos hd] at hfe
    by_cases hn : (e.name != "pkg") = true
    · rw [if_pos hn] at hfe
      injection hfe with hfe
      subst hfe
      simp only [clobbers, Utf8Path.join]
      rw [Bool.eq_false_iff]
      intro hc
      rcases hqe with hq1 | hq1 <;> subst hq1
      · rcases append_singleton_prefix_cases dest [e.name] "index.html" hc with h | h
        · cases h
        · injection h with h1 _
          rw [h1, hd] at hent
          exact absurd hent (by decide)
      · rcases append_singleton_prefix_cases dest [e.name] "pkg" hc with h | h
        · cases h
        · injection h with h1 _
          rw [bne_iff_ne] at hn
          exact hn h1
    · rw [if_neg hn] at hfe; cases hfe
  · rw [if_neg hd] at hfe
    have hd' : e.is_dir = false := by simpa using hd
    by_cases hn : (e.name != "index.html") = true
    · rw [if_pos hn] at hfe
      injection hfe with hfe
      subst hfe
      simp only [clobbers, beq_eq_false_iff_ne, ne_eq, Utf8Path.join]
      rcases hqe with hq1 | hq1 <;> subst hq1 <;> intro hc
      · have hname : e.name = "index.html" := by
          simpa using List.append_cancel_left hc
        rw [bne_iff_ne] at hn
        exact hn hname
      · have hname : e.name = "pkg" := by
          simpa using List.append_cancel_left hc
        rw [hname, hd'] at hent
        exact absurd hent (by decide)
    · rw [if_neg hn] at hfe; cases hfe

theorem mirror_no_clobber (src dest : Utf8Path) (entries : List DirEntry)
    (l : List FsOp)
    (hm : mirror_plan src dest entries (reserved src) = .ok l) :
    ∀ op ∈ l, ∀ q ∈ dest_reserved dest, clobbers op q = false := by
  induction entries generalizing l with
  | nil =>
    simp only [mirror_plan] at hm
    injection hm with hm
    subst hm
    intro op hop
    cases hop
  | cons e rest ih =>
    simp only [mirror_plan] at hm
    cases hrb : rebase (Utf8Path.join src [e.name]) src dest with
    | error err => rw [hrb] at hm; cases hm
    | ok t =>
      rw [hrb] at hm
      cases hrest : mirror_plan src dest rest (reserved src) with
      | error err => rw [hrest] at hm; dsimp only at hm; cases hm
      | ok ops =>
        rw [hrest] at hm
        dsimp only at hm
        by_cases hskip : (reserved src).contains (Utf8Path.join src [e.name]) = true
        · rw [if_pos hskip] at hm
          injection hm with hm
          subst hm
          exact ih ops hrest
        · rw [if_neg hskip] at hm
          obtain ⟨r, hfr, ht⟩ := rebase_eq_ok _ _ _ _ hrb
          have hr : r = [e.name] := by
            have h0 : src ++ [e.name] = src ++ r := by
              simpa [Utf8Path.join] using hfr
            simpa using (List.append_cancel_left h0).symm
          subst hr
          have hname_false : ∀ x : String,
              (reserved src).contains (src ++ [x]) = true → e.name ≠ x := by
            intro x hres hname
            exact hskip (by rw [Utf8Path.join, hname]; exact hres)
          have hhead : ∀ q ∈ dest_reserved dest,
              clobbers (FsOp.copyDir (Utf8Path.join src [e.name]) t) q = false ∧
              clobbers (FsOp.copyFile (Utf8Path.join src [e.name]) t) q = false := by
            intro q hq
            constructor
            · simp only [clobbers]
              rw [Bool.eq_false_iff]
              intro hc
              rcases (dest_reserved_mem_iff dest q).1 hq with hq1 | hq1 <;>
                subst hq1 <;> rw [ht] at hc
              · rcases append_singleton_prefix_cases dest [e.name] "index.html" hc
                  with h | h
                · cases h
                · injection h with h1 _
                  exact hname_false "index.html"
                    ((reserved_contains_iff src _).2 (Or.inl rfl)) h1
              · rcases append_singleton_prefix_cases dest [e.name] "pkg" hc
                  with h | h
                · cases h
                · injection h with h1 _
                  exact hname_false "pkg"
                    ((reserved_contains_iff src _).2 (Or.inr rfl)) h1
            · simp only [clobbers]
              rw [beq_eq_false_iff_ne]
              intro hc
              rcases (dest_reserved_mem_iff dest q).1 hq with hq1 | hq1 <;>
                rw [ht, hq1] at hc
              · have h1 : e.name = "index.html" := by
                  simpa using List.append_cancel_left hc
                exact hname_false "index.html"
                  ((reserved_contains_iff src _).2 (Or.inl rfl)) h1
              · have h1 : e.name = "pkg" := by
                  simpa using List.append_cancel_left hc
                exact hname_false "pkg"
                  ((reserved_contains_iff src _).2 (Or.inr rfl)) h1
          by_cases hd : e.is_dir = true
          · rw [if_pos hd] at hm
            injection hm with hm
            subst hm
            intro op hop q hq
            rcases List.mem_cons.1 hop with hop1 | hop1
            · subst hop1
              exact (hhead q hq).1
            · exact ih ops hrest op hop1 q hq
          · rw [if_neg hd] at hm
            injection hm with hm
            subst hm
            intro op hop q hq
            rcases List.mem_cons.1 hop with hop1 | hop1
            · subst hop1
              exact (hhead q hq).2
            · exact ih ops hrest op hop1 q hq

theorem resync_no_clobber (fs : FsState) (src dest : Utf8Path) (l : List FsOp)
    (hok : entries_ok fs.destEntries = true)
    (hr : resync_plan fs src dest = .ok l) :
    ∀ op ∈ l, ∀ q ∈ dest_reserved dest, clobbers op q = false := by
  unfold resync_plan at hr
  cases hm : mirror_plan src dest fs.srcEntries (reserved src) with
  | error e => rw [hm] at hr; cases hr
  | ok ms =>
    rw [hm] at hr
    dsimp only at hr
    injection hr with hr
    subst hr
    intro op hop q hq
    rcases List.mem_append.1 hop with hop1 | hop1
    · exact clean_dest_no_clobber dest fs.destEntries hok op hop1 q hq
    · exact mirror_no_clobber src dest fs.srcEntries ms hm op hop1 q hq

/-- C2 (amended): neither an incremental update nor a full resync ever
removes or overwrites a reserved destination entry (the index.html entry
file and the pkg bundle directory), with two exceptions forced by the code:
(1) an event one of whose paths is the asset source root itself rebases to
the bare destination root, and the planned directory-level operation
(remove_dir_all, copy_dir_all or a rename of the whole root) reaches the
reserved entries beneath it; (2) a Rename whose to-path is a reserved
source path slips past the reserved-path check (which inspects only the
event's from-path) and overwrites the corresponding reserved destination
entry. -/
theorem c2_reserved_amended (fs : FsState) (w : Watched) (src dest : Utf8Path)
    (hok : entries_ok fs.destEntries = true) :
    (∀ l, update_asset_plan fs w src dest = .ok (.ops l) →
      ∀ op ∈ l, ∀ q ∈ dest_reserved dest, clobbers op q = true →
        src ∈ w.paths ∨
        (∃ a b, w = Watched.Rename a b ∧ (reserved src).contains b = true ∧
          rebase b src dest = .ok q)) ∧
    (∀ l, resync_plan fs src dest = .ok l →
      ∀ op ∈ l, ∀ q ∈ dest_reserved dest, clobbers op q = false) := by
  constructor
  · intro l hplan op hop q hq hcl
    have hx : ∃ x, q = dest ++ [x] ∧
        (reserved src).contains (src ++ [x]) = true := by
      rcases (dest_reserved_mem_iff dest q).1 hq with h | h
      · exact ⟨"index.html", h, (reserved_contains_iff src _).2 (Or.inl rfl)⟩
      · exact ⟨"pkg", h, (reserved_contains_iff src _).2 (Or.inr rfl)⟩
    obtain ⟨x, hq1, hresx⟩ := hx
    cases w with
    | Rescan =>
      simp only [update_asset_plan, Watched.path] at hplan
      cases hres : resync_plan fs src dest with
      | error e => rw [hres] at hplan; cases hplan
      | ok l2 =>
        rw [hres] at hplan
        injection hplan with hplan
        injection hplan with hplan
        subst hplan
        have h0 := resync_no_clobber fs src dest l2 hok hres op hop q hq
        rw [h0] at hcl
        cases hcl
    | Create f =>
      simp only [update_asset_plan, Watched.path] at hplan
      by_cases hg : (reserved src).contains f = true
      · rw [if_pos hg] at hplan
        injection hplan with hplan
        cases hplan
      · rw [if_neg hg] at hplan
        cases hrb : rebase f src dest with
        | error e => rw [hrb] at hplan; cases hplan
        | ok t =>
          rw [hrb] at hplan
          injection hplan with hplan
          injection hplan with hplan
          subst hplan
          by_cases hd : fs.isDir f = true
          · rw [if_pos hd] at hop
            rcases List.mem_cons.1 hop with hop1 | hop1
            · subst hop1
              simp only [clobbers] at hcl
              rw [hq1] at hcl
              rcases rebased_prefix_cases f src dest t x hrb hcl with hf | hf
              · exact Or.inl (by simp [Watched.paths, hf])
              · exact absurd (by rw [hf]; exact hresx) hg
            · cases hop1
          · rw [if_neg hd] at hop
            rcases List.mem_cons.1 hop with hop1 | hop1
            · subst hop1
              simp only [clobbers, beq_iff_eq] at hcl
              have hf := rebased_eq_case f src dest t x hrb (by rw [hcl, hq1])
              exact absurd (by rw [hf]; exact hresx) hg
            · cases hop1
    | Remove f =>
      simp only [update_asset_plan, Watched.path] at hplan
      by_cases hg : (reserved src).contains f = true
      · rw [if_pos hg] at hplan
        injection hplan with hplan
        cases hplan
      · rw [if_neg hg] at hplan
        cases hrb : rebase f src dest with
        | error e => rw [hrb] at hplan; cases hplan
        | ok t =>
          rw [hrb] at hplan
          injection hplan with hplan
          injection hplan with hplan
          subst hplan
          by_cases hd : fs.isDir t = true
          · rw [if_pos hd] at hop
            rcases List.mem_cons.1 hop with hop1 | hop1
            · subst hop1
              simp only [clobbers] at hcl
              rw [hq1] at hcl
              rcases rebased_prefix_cases f src dest t x hrb hcl with hf | hf
              · exact Or.inl (by simp [Watched.paths, hf])
              · exact absurd (by rw [hf]; exact hresx) hg
            · cases hop1
          · rw [if_neg hd] at hop
            rcases List.mem_cons.1 hop with hop1 | hop1
            · subst hop1
              simp only [clobbers, beq_iff_eq] at hcl
              have hf := rebased_eq_case f src dest t x hrb (by rw [hcl, hq1])
              exact absurd (by rw [hf]; exact hresx) hg
            · cases hop1
    | Write f =>
      simp only [update_asset_plan, Watched.path] at hplan
      by_cases hg : (reserved src).contains f = true
      · rw [if_pos hg] at hplan
        injection hplan with hplan
        cases hplan
      · rw [if_neg hg] at hplan
        cases hrb : rebase f src dest with
        | error e => rw [hrb] at hplan; cases hplan
        | ok t =>
          rw [hrb] at hplan
          injection hplan with hplan
          injection hplan with hplan
          subst hplan
          rcases List.mem_cons.1 hop with hop1 | hop1
          · subst hop1
            simp only [clobbers, beq_iff_eq] at hcl
            have hf := rebased_eq_case f src dest t x hrb (by rw [hcl, hq1])
            exact absurd (by rw [hf]; exact hresx) hg
          · cases hop1
    | Rename a b =>
      simp only [update_asset_plan, Watched.path] at hplan
      by_cases hg : (reserved src).contains a = true
      · rw [if_pos hg] at hplan
        injection hplan with hplan
        cases hplan
      · rw [if_neg hg] at hplan
        cases hra : rebase a src dest with
        | error e => rw [hra] at hplan; cases hplan
        | ok a2 =>
          rw [hra] at hplan
          cases hrbb : rebase b src dest with
          | error e => rw [hrbb] at hplan; dsimp only at hplan; cases hplan
          | ok b2 =>
            rw [hrbb] at hplan
            dsimp only at hplan
            injection hplan with hplan
            injection hplan with hplan
            subst hplan
            rcases List.mem_cons.1 hop with hop1 | hop1
            · subst hop1
              simp only [clobbers, Bool.or_eq_true] at hcl
              rw [hq1] at hcl
              rcases hcl with hcl | hcl
              · rcases rebased_prefix_cases a src dest a2 x hra hcl with hf | hf
                · exact Or.inl (by simp [Watched.paths, hf])
                · exact absurd (by rw [hf]; exact hresx) hg
              · rcases rebased_prefix_cases b src dest b2 x hrbb hcl with hf | hf
                · exact Or.inl (by simp [Watched.paths, hf])
                · refine Or.inr ⟨a, b, rfl, by rw [hf]; exact hresx, ?_⟩
                  have h0 : rebase b src dest = .ok (Utf8Path.join dest [x]) := by
                    unfold rebase
                    rw [(unbase_eq_ok_iff b src [x]).2 hf]
                  rw [hq1]
                  exact h0
            · cases hop1
  · intro l hres
    exact resync_no_clobber fs src dest l hok hres

/-- Counterexample for C2: renaming a.txt to index.html inside the assets
root plans a rename onto target/site/index.html, which overwrites the
reserved destination entry file (a Remove of the assets root itself, which
plans remove_dir_all of the whole destination root, is a second violating
input). -/
theorem c2_rename_clobbers_reserved :
    update_asset_plan ⟨fun _ => false, [], []⟩
      (Watched.Rename ["assets", "a.txt"] ["assets", "index.html"])
      ["assets"] ["target", "site"]
      = .ok (.ops [FsOp.rename ["target", "site", "a.txt"]
          ["target", "site", "index.html"]]) ∧
    clobbers (FsOp.rename ["target", "site", "a.txt"]
        ["target", "site", "index.html"])
      ["target", "site", "index.html"] = true ∧
    ["target", "site", "index.html"] ∈ dest_reserved ["target", "site"] := by
  refine ⟨by decide, by decide, by decide⟩

/-- Witness for C2's amended theorem at a concrete benign input: a Create of
assets/x.png with one stale destination file. -/
theorem c2_reserved_amended_witness :
    (∀ l, update_asset_plan ⟨fun _ => false, [⟨"old.txt", false⟩], []⟩
        (Watched.Create ["assets", "x.png"]) ["assets"] ["target", "site"]
        = .ok (.ops l) →
      ∀ op ∈ l, ∀ q ∈ dest_reserved ["target", "site"], clobbers op q = true →
        ["assets"] ∈ (Watched.Create ["assets", "x.png"]).paths ∨
        (∃ a b, Watched.Create ["assets", "x.png"] = Watched.Rename a b ∧
          (reserved ["assets"]).contains b = true ∧
          rebase b ["assets"] ["target", "site"] = .ok q)) ∧
    (∀ l, resync_plan ⟨fun _ => false, [⟨"old.txt", false⟩], []⟩
        ["assets"] ["target", "site"] = .ok l →
      ∀ op ∈ l, ∀ q ∈ dest_reserved ["target", "site"], clobbers op q = false) :=
  c2_reserved_amended ⟨fun _ => false, [⟨"old.txt", false⟩], []⟩
    (Watched.Create ["assets", "x.png"]) ["assets"] ["target", "site"] (by decide)

/-- C4 (amended): exactly one Reload is published after each incremental
update whose planned operations all succeed; an update skipped by the
reserved-path check completes successfully with no Reload; and after an
incremental failure the fallback resync publishes no Reload at all (the
loop either continues silently or panics). -/
theorem c4_reload_amended (fs : FsState) (fails : FsOp → Bool) (w : Watched)
    (src dest : Utf8Path) :
    (∀ l, update_asset_plan fs w src dest = .ok (.ops l) →
      run_ops fails l = .ok () →
      update_asset fs fails w src dest = .ok [Msg.Reload "reload"]) ∧
    (update_asset_plan fs w src dest = .ok .skipped →
      update_asset fs fails w src dest = .ok []) ∧
    (∀ e, update_asset fs fails w src dest = .error e →
      asset_loop_step fs fails w src dest = .continues [] ∨
      asset_loop_step fs fails w src dest = .panics) := by
  refine ⟨?_, ?_, ?_⟩
  · intro l hplan hrun
    unfold update_asset
    rw [hplan]
    dsimp only
    rw [hrun]
  · intro hplan
    unfold update_asset
    rw [hplan]
  · intro e herr
    unfold asset_loop_step
    rw [herr]
    dsimp only
    cases hres : resync_run fs fails src dest with
    | ok u => left; rfl
    | error e2 => right; rfl

/-- Counterexample for C4: a Rename whose from-path lies outside the assets
root (which the watcher does produce, since path_starts_with also matches
the to-path) makes the incremental update fail on rebase; the fallback
resync then runs and succeeds, yet no Reload is published. -/
theorem c4_fallback_no_reload :
    update_asset ⟨fun _ => false, [], []⟩ (fun _ => false)
      (Watched.Rename ["other", "a"] ["assets", "b"]) ["assets"] ["target", "site"]
      = .error "unbase mismatch" ∧
    resync_run ⟨fun _ => false, [], []⟩ (fun _ => false)
      ["assets"] ["target", "site"] = .ok () ∧
    asset_loop_step ⟨fun _ => false, [], []⟩ (fun _ => false)
      (Watched.Rename ["other", "a"] ["assets", "b"]) ["assets"] ["target", "site"]
      = .continues [] := by
  refine ⟨by decide, by decide, by decide⟩

/-- Witness for C4's amended theorem: a Write of assets/x.png publishes
exactly one Reload. -/
theorem c4_reload_amended_witness :
    update_asset ⟨fun _ => false, [], []⟩ (fun _ => false)
      (Watched.Write ["assets", "x.png"]) ["assets"] ["target", "site"]
      = .ok [Msg.Reload "reload"] :=
  (c4_reload_amended ⟨fun _ => false, [], []⟩ (fun _ => false)
      (Watched.Write ["assets", "x.png"]) ["assets"] ["target", "site"]).1
    [FsOp.copyFile ["assets", "x.png"] ["target", "site", "x.png"]]
    (by decide) (by decide)

/-- C5 (amended): an incremental update failure triggers the full-resync
fallback instead of surfacing the error: the updater loop continues
(publishing nothing) when the fallback succeeds, but the unwrap in the loop
panics the updater task when the fallback itself fails. -/
theorem c5_fallback_amended (fs : FsState) (fails : FsOp → Bool) (w : Watched)
    (src dest : Utf8Path) (e : String)
    (herr : update_asset fs fails w src dest = .error e) :
    (resync_run fs fails src dest = .ok () →
      asset_loop_step fs fails w src dest = .continues []) ∧
    (∀ e2, resync_run fs fails src dest = .error e2 →
      asset_loop_step fs fails w src dest = .panics) := by
  constructor
  · intro hres
    unfold asset_loop_step
    rw [herr]
    dsimp only
    rw [hres]
  · intro e2 hres
    unfold asset_loop_step
    rw [herr]
    dsimp only
    rw [hres]

/-- Counterexample for C5: when the incremental update fails and the
fallback resync itself fails (here: removing the stale destination file
junk fails), the updater loop panics — a sync failure can be fatal to the
watch session's asset updater. -/
theorem c5_fallback_panics :
    asset_loop_step ⟨fun _ => false, [⟨"junk", false⟩], []⟩
      (fun op => op == FsOp.removeFile ["target", "site", "junk"])
      (Watched.Rename ["elsewhere", "x"] ["assets", "y"])
      ["assets"] ["target", "site"]
      = StepOutcome.panics := by
  decide

/-- Witness for C5's amended theorem: with a failing rebase and a fallback
that succeeds, the loop continues silently. -/
theorem c5_fallback_amended_witness :
    asset_loop_step ⟨fun _ => false, [], []⟩ (fun _ => false)
      (Watched.Rename ["lib", "a"] ["assets", "b"]) ["assets"] ["target", "site"]
      = StepOutcome.continues [] :=
  (c5_fallback_amended ⟨fun _ => false, [], []⟩ (fun _ => false)
      (Watched.Rename ["lib", "a"] ["assets", "b"]) ["assets"] ["target", "site"]
      "unbase mismatch" (by decide)).1 (by decide)

/-- C6 (amended): the exclusion check of handle drops exactly the events
whose path is a member of the exclusion list (Vec::contains, an exact path
equality); it does not drop descendants of excluded paths. -/
theorem c6_exclude_amended (w : Watched) (exclude : List Utf8Path)
    (assets_dir : Option Utf8Path) (p : Utf8Path)
    (hp : w.path = some p) (hmem : exclude.contains p = true) :
    handle w exclude assets_dir = [] := by
  unfold handle
  rw [hp]
  simp only [hmem, if_true]

/-- Counterexample for C6: an event at a/sub/img.png, a strict descendant of
the excluded path a/sub, is not dropped: it reaches the assets-root routing
and AssetsChanged is published. -/
theorem c6_descendant_not_excluded :
    handle (Watched.Write ["a", "sub", "img.png"]) [["a", "sub"]] (some ["a"])
      = [Msg.AssetsChanged (Watched.Write ["a", "sub", "img.png"])] ∧
    Utf8Path.starts_with ["a", "sub", "img.png"] ["a", "sub"] = true := by
  refine ⟨by decide, by decide⟩

/-- Witness for C6's amended theorem: an exactly-excluded path is dropped. -/
theorem c6_exclude_amended_witness :
    handle (Watched.Write ["gen", "out.rs"]) [["gen", "out.rs"]] none = [] :=
  c6_exclude_amended (Watched.Write ["gen", "out.rs"]) [["gen", "out.rs"]] none
    ["gen", "out.rs"] rfl (by decide)

/-- C7 (amended): a failure to watch a root path never terminates the
program; the session runs on, with exactly the failing roots logged. -/
theorem c7_watch_failure_amended (watch_fails : Utf8Path → Bool)
    (paths : List Utf8Path) :
    watch_all watch_fails paths = .running (paths.filter watch_fails) := by
  induction paths with
  | nil => rfl
  | cons p rest ih =>
    simp only [watch_all, ih, List.filter_cons]

/-- Counterexample for C7: with root1 failing to watch and root2 watchable,
the session does not abort — it keeps running with root1 logged, contrary to
the claim that the whole program terminates with a non-zero exit. -/
theorem c7_watch_failure_continues :
    watch_all (fun p => p == ["root1"]) [["root1"], ["root2"]]
      = WatchRun.running [["root1"]] ∧
    WatchRun.is_aborted
      (watch_all (fun p => p == ["root1"]) [["root1"], ["root2"]]) = false := by
  refine ⟨by decide, by decide⟩

/-- C8: when a build run fails (any stage) and shutdown is not requested,
the loop logs the failure, blocks waiting for the next source or style
change, and then continues with the remaining iterations — it neither exits
the loop nor retries without waiting. -/
theorem c8_build_failure_waits (env : IterEnv) (rest : List IterEnv) (e : String)
    (hb : env.buildRes = .error e) (hs : env.shutdownAfter = false) :
    watch_loop (env :: rest)
      = (WAction.logWarn :: WAction.waitChange :: (watch_loop rest).1,
         (watch_loop rest).2) := by
  obtain ⟨b, r, s⟩ := env
  dsimp only at hb hs
  subst hb
  subst hs
  rfl

/-- Witness for C8: a failed server compile followed by a successful build
that serves and then shuts down — the failure iteration logs, waits, and the
next change is processed normally. -/
theorem c8_build_failure_waits_witness :
    watch_loop [⟨.error "server compile", .ok (), false⟩, ⟨.ok (), .ok (), true⟩]
      = ([WAction.logWarn, WAction.waitChange, WAction.sendReload,
          WAction.runServer], .ok ()) := by
  rw [c8_build_failure_waits ⟨.error "server compile", .ok (), false⟩
    [⟨.ok (), .ok (), true⟩] "server compile" rfl rfl]
  decide
